import Mathlib

/-!
Verification development for the Iguanas `BayesSearchCV` component
(cross-validated, Bayesian-optimised pipeline search engine).

The repository ships only the example notebooks
`rule_selection/examples/bayes_search_cv_example.ipynb` and its duplicate
under `docs/examples/rule_selection/`; the implementation module
`iguanas/rule_selection/bayes_search_cv.py` referenced by the recorded
warnings is not part of the visible sources.  The engine below is therefore
modelled from the specification (`spec.md`, sections 3-7), and the concrete
data recorded in the notebook outputs (parameter sets, `best_params`,
`best_score`, `best_index`, the `cv_results` table head, the degenerate-fold
warnings) is transcribed verbatim as evidence against which claims are
checked.

Numeric values are represented over `ℚ`; Python floats are exact decimals in
every recorded output, so this is faithful for the equalities and order
comparisons used here.
-/

/-- Modelled from the spec: a concrete parameter value as it appears in a
materialised `FlatParameterSet` — Python distinguishes float-typed values
(`4.0`), int-typed values (`4`), strings and `None`, and the distinction is
observable in the recorded outputs (claim about `UniformInteger` values
materialising as floats). -/
inductive PValue where
  | vfloat (q : ℚ)
  | vint (n : ℤ)
  | vstr (s : String)
  | vnone
  deriving DecidableEq

/-- Python `==` semantics on parameter values: numeric values compare by
value across the int/float divide (`5.0 == 5` is true), other kinds compare
within their kind only. -/
def PValue.pyEq : PValue → PValue → Bool
  | .vfloat a, .vfloat b => a == b
  | .vfloat a, .vint b => a == (b : ℚ)
  | .vint a, .vfloat b => ((a : ℚ)) == b
  | .vint a, .vint b => a == b
  | .vstr a, .vstr b => a == b
  | .vnone, .vnone => true
  | _, _ => false

/-- Modelled from the spec (§3): a distribution declared for one tunable
parameter: `UniformFloat(lo,hi)`, `UniformInteger(lo,hi)` or
`Choice(values)`. -/
inductive Distribution where
  | uniformFloat (lo hi : ℚ)
  | uniformInteger (lo hi : ℤ)
  | choice (values : List PValue)
  deriving DecidableEq

/-- Round half up, the documented deterministic rounding rule the spec (§9)
asks an implementation to fix for integer parameters sampled from a
continuous relaxation. -/
def roundHalfUp (q : ℚ) : ℤ := ⌊q + 1 / 2⌋

/-- Modelled from the spec (§4.5): materialise one sampled value from a
distribution, driven by a unit draw `u ∈ [0,1]`.  Integers are optimised
over a continuous relaxation and rounded; the materialised value is
float-typed (the recorded warnings and results table print `4.0`, `5.0`,
never `4`), categoricals are chosen from the discrete support. -/
def Distribution.materialise : Distribution → ℚ → PValue
  | .uniformFloat lo hi, u => .vfloat (lo + u * (hi - lo))
  | .uniformInteger lo hi, u =>
      .vfloat ((roundHalfUp ((lo : ℚ) + u * ((hi : ℚ) - (lo : ℚ))) : ℤ) : ℚ)
  | .choice vs, u => vs.getD (min ⌊u * vs.length⌋.toNat (vs.length - 1)) .vnone

/-- Modelled from the spec (§3): a search-space declaration, step name →
parameter name → distribution. -/
def SearchSpaceSpec : Type := List (String × List (String × Distribution))

/-- Modelled from the spec (§3): a nested parameter set, step name →
parameter name → concrete value — the shape printed by the notebook for
trial parameter sets and for `best_params`. -/
def NestedParams : Type := List (String × List (String × PValue))

instance : DecidableEq NestedParams := by
  unfold NestedParams
  infer_instance

/-- Look a parameter value up in a nested parameter set. -/
def lookupParam (ps : NestedParams) (step param : String) : Option PValue :=
  (List.lookup step ps).bind fun m => List.lookup param m

/-- Is a (step, parameter) pair declared tunable in the search space? -/
def isTunable (spaces : SearchSpaceSpec) (step param : String) : Bool :=
  match List.lookup step spaces with
  | some ps => (List.lookup param ps).isSome
  | none => false

/-- The `step__parameter` flattened columns of one trial's parameter set,
as displayed by the results table. -/
def flattenParams (ps : NestedParams) : List (String × PValue) :=
  (ps.map fun sp => sp.2.map fun pv => (sp.1 ++ "__" ++ pv.1, pv.2)).flatten

/-- Modelled from the spec (§3, `SearchResult.best_params`): the winning
`FlatParameterSet` restricted to step/parameter keys that are declared
tunable in the search space and whose chosen value differs (Python `==`)
from the pipeline template's default for that key; a key with no recorded
template default counts as overridden.  This definition follows the spec's
words; the recorded run is compared against it. -/
def specBestParams (spaces : SearchSpaceSpec) (defaults winning : NestedParams) :
    List ((String × String) × PValue) :=
  (spaces.map fun sp =>
    sp.2.filterMap fun pd =>
      match lookupParam winning sp.1 pd.1 with
      | some v =>
          if isTunable spaces sp.1 pd.1 then
            match lookupParam defaults sp.1 pd.1 with
            | some d => if v.pyEq d then none else some ((sp.1, pd.1), v)
            | none => some ((sp.1, pd.1), v)
          else none
      | none => none).flatten

/-- Modelled from the spec (§3): the record kept for one completed trial.
`stddev_score` stores the population variance of the per-fold scores (the
square of the population standard deviation): the standard deviation itself
is irrational in general, and squaring is strictly monotone on the
nonnegatives, so every order comparison and tie-break on the standard
deviation coincides with the same comparison on this field. -/
structure TrialRecord where
  params : NestedParams
  per_fold_scores : List ℚ
  mean_score : ℚ
  stddev_score : ℚ
  fold_ids : List ℕ
  deriving DecidableEq

/-- Modelled from the spec (§7, degenerate-fold condition): the warning
surfaced for a degenerate fold — it identifies the offending parameter set,
the fold index, and the substituted score (the notebook records
"No rules remaining for: Pipeline parameter set = ...; Fold index = i. The
metric score for this parameter set & fold will be set to 0"). -/
structure DegenerateFoldWarning where
  params : NestedParams
  fold_index : ℕ
  score_set_to : ℚ
  deriving DecidableEq

/-- Modelled from the spec (§3): one train/validation fold. -/
structure Fold (Row Label : Type) where
  train : List Row
  trainLabels : List Label
  val : List Row
  valLabels : List Label

/-- Modelled from the spec (§2, §4, §6): the configuration surface of the
search orchestrator together with its out-of-scope collaborators, each
specified at its interface boundary only:
* `bindFit params train labels` — bind a flat parameter set onto a fresh
  clone of the pipeline template and fit it (spec §4.2/§4.3), returning the
  fitted pipeline;
* `viable` — whether the fitted pipeline's terminal stage yields usable
  output (`false` = the degenerate "no rules remaining" condition);
* `produce` — the terminal step's per-row production used by `predict`;
* `scorer` — the user-supplied higher-is-better scoring function;
* `split` — the stratified CV splitter (spec §4.1);
* `propose` — the Bayesian optimiser as a black box behind
  `propose`/`observe` (spec §4.5, §9): a deterministic function of the
  sequence of (parameters, loss) observations made so far; the fixed random
  seed is internal to `propose` and `split`. -/
structure SearchConfig (Row Label Pred Model : Type) where
  search_spaces : SearchSpaceSpec
  templateDefaults : NestedParams
  cv : ℕ
  n_iter : ℕ
  num_cores : ℕ
  error_score : ℚ
  verbose : ℕ
  scorer : List Pred → List Label → ℚ
  bindFit : NestedParams → List Row → List Label → Model
  viable : Model → Bool
  produce : Model → Row → Pred
  split : List Row → List Label → ℕ → List (Fold Row Label)
  propose : List (NestedParams × ℚ) → NestedParams

/-- Modelled from the spec (§4.4): evaluate one fold of one trial.  Bind
the parameters, fit on the fold's training partition; if the fitted
pipeline's terminal stage signals no viable output, record the configured
`error_score` for this fold and surface a warning identifying the parameter
set and the fold index; otherwise predict on the validation partition and
score with the user's scorer. -/
def evalFold {Row Label Pred Model : Type}
    (cfg : SearchConfig Row Label Pred Model) (params : NestedParams)
    (i : ℕ) (fold : Fold Row Label) : ℚ × List DegenerateFoldWarning :=
  let m := cfg.bindFit params fold.train fold.trainLabels
  if cfg.viable m then
    (cfg.scorer (fold.val.map (cfg.produce m)) fold.valLabels, [])
  else
    (cfg.error_score, [⟨params, i, cfg.error_score⟩])

/-- Population variance of a list of scores (see `TrialRecord.stddev_score`). -/
def popVariance (scores : List ℚ) : ℚ :=
  let m := scores.sum / scores.length
  (scores.map fun x => (x - m) ^ 2).sum / scores.length

/-- Modelled from the spec (§4.4): evaluate one trial across all folds and
aggregate to a `TrialRecord`, absorbing degenerate folds as `error_score`
plus a warning instead of failing the trial. -/
def evaluateTrial {Row Label Pred Model : Type}
    (cfg : SearchConfig Row Label Pred Model) (folds : List (Fold Row Label))
    (params : NestedParams) : TrialRecord × List DegenerateFoldWarning :=
  let results := folds.enum.map fun p => evalFold cfg params p.1 p.2
  let scores := results.map Prod.fst
  ({ params := params
     per_fold_scores := scores
     mean_score := scores.sum / scores.length
     stddev_score := popVariance scores
     fold_ids := List.range folds.length },
   (results.map Prod.snd).flatten)

/-- The strict "strictly better trial" order used for best-trial selection
(spec §4.7): higher mean score first, then lower score spread. -/
def keyLt (a b : TrialRecord) : Prop :=
  b.mean_score < a.mean_score ∨
    (a.mean_score = b.mean_score ∧ a.stddev_score < b.stddev_score)

instance (a b : TrialRecord) : Decidable (keyLt a b) := by
  unfold keyLt
  infer_instance

/-- Two trials tie on both selection statistics. -/
def keyEq (a b : TrialRecord) : Prop :=
  a.mean_score = b.mean_score ∧ a.stddev_score = b.stddev_score

instance (a b : TrialRecord) : Decidable (keyEq a b) := by
  unfold keyEq
  infer_instance

/-- Modelled from the spec (§4.7): fold over the remaining trial records,
keeping the incumbent best `(index, record)` and replacing it only when a
later record is strictly better — so the earliest trial wins every tie. -/
def bestFrom (i : ℕ) (b : ℕ × TrialRecord) : List TrialRecord → ℕ × TrialRecord
  | [] => b
  | r :: rest => bestFrom (i + 1) (if keyLt r b.2 then (i, r) else b) rest

/-- Modelled from the spec (§4.7): select the best trial of the history —
maximal mean score, ties broken by lowest score spread, then by earliest
trial index. -/
def bestPair : List TrialRecord → Option (ℕ × TrialRecord)
  | [] => none
  | r :: rest => some (bestFrom 1 (0, r) rest)

/-- Modelled from the spec (§4.4-§4.7): run the trial loop for the given
remaining budget, threading the optimiser's observation sequence — after
each trial the pair (parameters, loss) with loss the *negative* of the
trial's mean score is appended, in trial-submission order.  Returns the
trial records in submission order, the final observation sequence, and the
accumulated degenerate-fold warnings. -/
def runTrials {Row Label Pred Model : Type}
    (cfg : SearchConfig Row Label Pred Model) (folds : List (Fold Row Label)) :
    ℕ → List (NestedParams × ℚ) →
    List TrialRecord × List (NestedParams × ℚ) × List DegenerateFoldWarning
  | 0, obs => ([], obs, [])
  | n + 1, obs =>
    let params := cfg.propose obs
    let tr := evaluateTrial cfg folds params
    let rest := runTrials cfg folds n (obs ++ [(params, -tr.1.mean_score)])
    (tr.1 :: rest.1, rest.2.1, tr.2 ++ rest.2.2)

/-- Modelled from the spec (§3 `SearchResult`, §4.7): everything `fit`
populates: the trial history in submission order, the observation sequence
fed to the optimiser, the surfaced warnings, the best trial's index, score
and (restricted) parameters, and the pipeline refit on the entire input
with the winning parameters — the artifact `predict` delegates to. -/
structure FitResult (Model : Type) where
  history : List TrialRecord
  observations : List (NestedParams × ℚ)
  warnings : List DegenerateFoldWarning
  best_index : ℕ
  best_score : ℚ
  best_params : List ((String × String) × PValue)
  refit : Model

/-- Modelled from the spec (§4.7 `SearchOrchestrator.fit`): build the folds
once, run exactly `n_iter` trials, select the best trial record, rebind the
winning flat parameter set onto the original pipeline template and fit it
once on the entire input (no hold-out).  Total: degenerate folds are
absorbed by the evaluator, and no early stopping exists.  (For an empty
budget the best-trial fields are filled with inert defaults; every claim
about them assumes `n_iter ≥ 1`.) -/
def fitBS {Row Label Pred Model : Type}
    (cfg : SearchConfig Row Label Pred Model) (X : List Row) (y : List Label) :
    FitResult Model :=
  let folds := cfg.split X y cfg.cv
  let run := runTrials cfg folds cfg.n_iter []
  let winner := (bestPair run.1).getD (0, ⟨[], [], 0, 0, []⟩)
  { history := run.1
    observations := run.2.1
    warnings := run.2.2
    best_index := winner.1
    best_score := winner.2.mean_score
    best_params := specBestParams cfg.search_spaces cfg.templateDefaults winner.2.params
    refit := cfg.bindFit winner.2.params X y }

/-- The error surfaced when `predict` is called before `fit` has
completed. -/
inductive SearchError where
  | notFittedError
  deriving DecidableEq

/-- Modelled from the spec (§4.7, §6): `predict` on the orchestrator.  The
orchestrator's post-construction state is `none` until `fit` completes and
`some fitResult` afterwards; `predict` fails with `NotFittedError` in the
former case and otherwise delegates to the refit pipeline, producing one
prediction per input row, in input row order, via the terminal step. -/
def predictBS {Row Label Pred Model : Type}
    (cfg : SearchConfig Row Label Pred Model) :
    Option (FitResult Model) → List Row → Except SearchError (List Pred)
  | none, _ => .error .notFittedError
  | some fr, X => .ok (X.map (cfg.produce fr.refit))

/-- The row order of the tabular results view: strictly better trials first
(higher mean score, then lower spread), rows tied on both statistics
ordered by earliest trial index. -/
def rowLe (a b : ℕ × TrialRecord) : Prop :=
  keyLt a.2 b.2 ∨ (¬keyLt a.2 b.2 ∧ ¬keyLt b.2 a.2 ∧ a.1 ≤ b.1)

instance (a b : ℕ × TrialRecord) : Decidable (rowLe a b) := by
  unfold rowLe
  infer_instance

instance : DecidableRel rowLe := fun _ _ => inferInstance

/-- The tabular trial-results view exposed after `fit` — the notebook
exposes it as the attribute `cv_results` (there is no attribute named
`history` on the recorded object; the spec's `history` is the underlying
submission-ordered record sequence).  One row per trial, keyed by the
trial's index into the history; the row carries the trial's parameter set
(`Params` column, with one flattened `step__parameter` column per pair, see
`flattenParams`), fold indices (`FoldIdx`), per-fold scores (`Scores`),
`MeanScore` and `StdDevScore`; rows are sorted best-first by `rowLe`, not
by execution order. -/
def cv_results (history : List TrialRecord) : List (ℕ × TrialRecord) :=
  List.insertionSort rowLe history.enum

/-- Modelled from the spec (§5): the submission-order observe queue of the
parallel trial executor.  Workers hand back `(trial index, record)` pairs
in an arbitrary completion order; the results are applied strictly in
trial-submission order `0, 1, …, n-1` by looking each index up in the
returned batch. -/
def gatherSubmissionOrder (arrivals : List (ℕ × TrialRecord)) (n : ℕ) :
    Option (List TrialRecord) :=
  (List.range n).mapM fun i => List.lookup i arrivals

/-! ### Data recorded by the example notebook run

Transcribed from the outputs recorded in
`src/iguanas/rule_selection/examples/bayes_search_cv_example.ipynb`
(cells: search-space and pipeline construction; `fit` warnings; and the
`best_score` / `best_params` / `best_index` / `cv_results.head()` outputs).
-/

/-- The search space declared by the notebook (its cell defining
`search_spaces`). -/
def observedSearchSpaces : SearchSpaceSpec :=
  [("generator",
    [("n_total_conditions", .uniformInteger 1 5),
     ("target_feat_corr_types", .choice [.vstr "Infer", .vnone])]),
   ("simple_filterer", [("threshold", .uniformFloat 0 1)]),
   ("corr_filterer", [("threshold", .uniformFloat 0 1)])]

/-- The pipeline template's explicit constructor arguments for the tunable
steps, from the notebook's pipeline-construction cell:
`RuleGeneratorDT(n_total_conditions=4, …)`,
`SimpleFilter(threshold=0.1, …)`, and the `CorrelatedFilter`'s reducer
`AgglomerativeClusteringReducer(threshold=0.9, …)`.
`target_feat_corr_types` is not passed explicitly, so the template records
no default for it. -/
def observedTemplateDefaults : NestedParams :=
  [("generator", [("n_total_conditions", .vint 4)]),
   ("simple_filterer", [("threshold", .vfloat 0.1)]),
   ("corr_filterer", [("threshold", .vfloat 0.9)])]

/-- The winning trial's parameter set (trial index 14, the recorded
`best_index`).  `n_total_conditions = 5.0` is read off the trial's
flattened `generator__n_total_conditions` column of the recorded
`cv_results` head; the two threshold values and the choice value are the
full-precision values recorded in `best_params`, consistent with the
truncated `Params` column prefix `{'corr_filterer': {'threshold':
0.136371520944…` of row 14. -/
def observedWinningParams : NestedParams :=
  [("corr_filterer", [("threshold", .vfloat 0.13637152094471683)]),
   ("generator",
    [("n_total_conditions", .vfloat 5.0),
     ("target_feat_corr_types", .vstr "Infer")]),
   ("simple_filterer", [("threshold", .vfloat 0.6444172588081419)])]

/-- The recorded value of `bs.best_params`, exactly as printed by the
notebook — note the absence of any `n_total_conditions` entry under
`generator`. -/
def observedBestParams : NestedParams :=
  [("corr_filterer", [("threshold", .vfloat 0.13637152094471683)]),
   ("generator", [("target_feat_corr_types", .vstr "Infer")]),
   ("simple_filterer", [("threshold", .vfloat 0.6444172588081419)])]

/-- One row of the recorded `cv_results.head()` table.  Only the columns
that determine the row order are transcribed: the trial index and the
printed `MeanScore` / `StdDevScore` values, represented in units of 10⁻⁶
exactly as printed (6 decimal places); the `FoldIdx` column is `[0, 1, 2]`
for every printed row, and the `Params` / `Scores` columns are truncated in
the recorded output, so they are set to inert empty values here. -/
def observedHeadRow (i : ℕ) (meanMicro stddevMicro : ℚ) : ℕ × TrialRecord :=
  (i, { params := []
        per_fold_scores := []
        mean_score := meanMicro
        stddev_score := stddevMicro
        fold_ids := [0, 1, 2] })

/-- The recorded `cv_results.head()` row sequence: trial indices
14, 13, 0, 8, 10 with the printed score statistics (×10⁶).  Rows 0 and 8
tie on both statistics (their printed per-fold score lists agree to every
printed digit), and row 0 — the earlier trial — is printed first. -/
def observedCvHead : List (ℕ × TrialRecord) :=
  [observedHeadRow 14 696576 10212,
   observedHeadRow 13 658794 30745,
   observedHeadRow 0 635460 420,
   observedHeadRow 8 635460 420,
   observedHeadRow 10 625548 19744]

/-- The integer-parameter values recorded for `generator__n_total_conditions`
across the run: `4.0`, `1.0`, `3.0` in the degenerate-fold warnings and
`5.0`, `2.0` in the `cv_results` head — always printed float-typed with
integral value. -/
def observedIntegerValues : List PValue :=
  [.vfloat 4.0, .vfloat 1.0, .vfloat 3.0, .vfloat 5.0, .vfloat 2.0]

/-! ### Order lemmas for best-trial selection -/

theorem keyLt_irrefl (a : TrialRecord) : ¬keyLt a a := by
  unfold keyLt
  rintro (h | ⟨-, h⟩) <;> exact lt_irrefl _ h

theorem keyLt_trans {a b c : TrialRecord} (h₁ : keyLt a b) (h₂ : keyLt b c) :
    keyLt a c := by
  unfold keyLt at *
  rcases h₁ with h₁ | ⟨e₁, s₁⟩ <;> rcases h₂ with h₂ | ⟨e₂, s₂⟩
  · exact Or.inl (h₂.trans h₁)
  · exact Or.inl (e₂ ▸ h₁)
  · exact Or.inl (e₁ ▸ h₂)
  · exact Or.inr ⟨e₁.trans e₂, s₁.trans s₂⟩

theorem keyLt_asymm {a b : TrialRecord} (h : keyLt a b) : ¬keyLt b a :=
  fun h' => keyLt_irrefl a (keyLt_trans h h')

theorem keyEq_not_lt {a b : TrialRecord} (h : keyEq a b) :
    ¬keyLt a b ∧ ¬keyLt b a := by
  obtain ⟨hm, hs⟩ := h
  unfold keyLt
  constructor
  · rintro (h' | ⟨-, h'⟩)
    · exact absurd (hm ▸ h') (lt_irrefl _)
    · exact absurd (hs ▸ h') (lt_irrefl _)
  · rintro (h' | ⟨-, h'⟩)
    · exact absurd (hm ▸ h') (lt_irrefl _)
    · exact absurd (hs ▸ h') (lt_irrefl _)

theorem keyEq_lt_congr {a b c : TrialRecord} (h : keyEq a b) (h' : keyLt b c) :
    keyLt a c := by
  obtain ⟨hm, hs⟩ := h
  unfold keyLt at *
  rcases h' with h' | ⟨e, s⟩
  · exact Or.inl (hm ▸ h')
  · exact Or.inr ⟨hm.trans e, hs ▸ s⟩

theorem keyEq_of_not_lt {a b : TrialRecord} (h₁ : ¬keyLt a b) (h₂ : ¬keyLt b a) :
    keyEq a b := by
  unfold keyLt at *
  push_neg at h₁ h₂
  rcases lt_trichotomy a.mean_score b.mean_score with hm | hm | hm
  · exact absurd hm (by simpa using h₂.1)
  · refine ⟨hm, le_antisymm ?_ ?_⟩
    · exact h₂.2 hm.symm
    · exact h₁.2 hm
  · exact absurd hm (by simpa using h₁.1)

theorem bestFrom_cons (i : ℕ) (b : ℕ × TrialRecord) (r : TrialRecord)
    (rest : List TrialRecord) :
    bestFrom i b (r :: rest) =
      bestFrom (i + 1) (if keyLt r b.2 then (i, r) else b) rest := rfl

theorem bestFrom_eq_or_lt :
    ∀ (l : List TrialRecord) (i : ℕ) (b : ℕ × TrialRecord),
      bestFrom i b l = b ∨ keyLt (bestFrom i b l).2 b.2
  | [], _, _ => Or.inl rfl
  | r :: rest, i, b => by
    rw [bestFrom_cons]
    by_cases h : keyLt r b.2
    · rw [if_pos h]
      rcases bestFrom_eq_or_lt rest (i + 1) (i, r) with he | hlt
    -- the incumbent after absorbing `r` is `(i, r)`, which strictly beats `b`
      · right
        rw [he]
        exact h
      · exact Or.inr (keyLt_trans hlt h)
    · rw [if_neg h]
      exact bestFrom_eq_or_lt rest (i + 1) b

theorem bestFrom_not_beaten_init (l : List TrialRecord) (i : ℕ)
    (b : ℕ × TrialRecord) : ¬keyLt b.2 (bestFrom i b l).2 := by
  rcases bestFrom_eq_or_lt l i b with he | hlt
  · rw [he]
    exact keyLt_irrefl _
  · exact keyLt_asymm hlt

theorem bestFrom_not_beaten :
    ∀ (l : List TrialRecord) (i : ℕ) (b : ℕ × TrialRecord) (x : TrialRecord),
      x ∈ l → ¬keyLt x (bestFrom i b l).2
  | r :: rest, i, b, x, hx => by
    rw [bestFrom_cons]
    rcases List.mem_cons.mp hx with rfl | hx'
    · by_cases h : keyLt x b.2
      · rw [if_pos h]
        exact bestFrom_not_beaten_init rest (i + 1) (i, x)
      · rw [if_neg h]
        rcases bestFrom_eq_or_lt rest (i + 1) b with he | hlt
        · rw [he]
          exact h
        · exact fun hcon => h (keyLt_trans hcon hlt)
    · by_cases h : keyLt r b.2 <;> simp only [if_pos, if_neg, h, if_true, if_false]
      · exact bestFrom_not_beaten rest (i + 1) (i, r) x hx'
      · exact bestFrom_not_beaten rest (i + 1) b x hx'

theorem bestFrom_mem :
    ∀ (l : List TrialRecord) (i : ℕ) (b : ℕ × TrialRecord),
      bestFrom i b l = b ∨
        ∃ j, ∃ hj : j < l.length, bestFrom i b l = (j + i, l.get ⟨j, hj⟩)
  | [], _, _ => Or.inl rfl
  | r :: rest, i, b => by
    rw [bestFrom_cons]
    by_cases h : keyLt r b.2
    · rw [if_pos h]
      rcases bestFrom_mem rest (i + 1) (i, r) with he | ⟨j, hj, hev⟩
      · right
        exact ⟨0, by simp, by rw [he]; simp⟩
      · right
        refine ⟨j + 1, by simpa using hj, ?_⟩
        rw [hev]
        refine Prod.ext ?_ ?_ <;> simp
        omega
    · rw [if_neg h]
      rcases bestFrom_mem rest (i + 1) b with he | ⟨j, hj, hev⟩
      · exact Or.inl he
      · right
        refine ⟨j + 1, by simpa using hj, ?_⟩
        rw [hev]
        refine Prod.ext ?_ ?_ <;> simp
        omega

theorem bestFrom_keyEq_init (l : List TrialRecord) (i : ℕ) (b : ℕ × TrialRecord)
    (h : keyEq b.2 (bestFrom i b l).2) : bestFrom i b l = b := by
  rcases bestFrom_eq_or_lt l i b with he | hlt
  · exact he
  · exact absurd hlt (keyEq_not_lt h).2

theorem bestFrom_earliest :
    ∀ (l : List TrialRecord) (i : ℕ) (b : ℕ × TrialRecord), b.1 ≤ i →
      ∀ (j : ℕ) (hj : j < l.length),
        keyEq (l.get ⟨j, hj⟩) (bestFrom i b l).2 → (bestFrom i b l).1 ≤ i + j
  | r :: rest, i, b, hb, 0, hj, heq => by
    rw [bestFrom_cons] at heq ⊢
    by_cases h : keyLt r b.2
    · rw [if_pos h] at heq ⊢
      have hres := bestFrom_keyEq_init rest (i + 1) (i, r) (by simpa using heq)
      rw [hres]
      omega
    · rw [if_neg h] at heq ⊢
      rcases bestFrom_eq_or_lt rest (i + 1) b with he | hlt
      · rw [he]
        omega
      · exact absurd (keyEq_lt_congr (by simpa using heq) hlt) h
  | r :: rest, i, b, hb, j + 1, hj, heq => by
    rw [bestFrom_cons] at heq ⊢
    have hj' : j < rest.length := by simpa using hj
    by_cases h : keyLt r b.2
    · rw [if_pos h] at heq ⊢
      have := bestFrom_earliest rest (i + 1) (i, r) (by omega) j hj'
        (by simpa using heq)
      omega
    · rw [if_neg h] at heq ⊢
      have := bestFrom_earliest rest (i + 1) b (by omega) j hj'
        (by simpa using heq)
      omega

theorem bestPair_full {hist : List TrialRecord} (h : hist ≠ []) :
    ∃ pr, bestPair hist = some pr ∧
      ∃ hlt : pr.1 < hist.length,
        hist.get ⟨pr.1, hlt⟩ = pr.2 ∧
        (∀ x ∈ hist, ¬keyLt x pr.2) ∧
        (∀ (j : ℕ) (hj : j < hist.length),
          keyEq (hist.get ⟨j, hj⟩) pr.2 → pr.1 ≤ j) ∧
        (∀ x ∈ hist, x.mean_score ≤ pr.2.mean_score) ∧
        (∀ x ∈ hist, x.mean_score = pr.2.mean_score →
          pr.2.stddev_score ≤ x.stddev_score) := by
  obtain ⟨r, rest, rfl⟩ := List.exists_cons_of_ne_nil h
  have hprov := bestFrom_mem rest 1 (0, r)
  have hno : ∀ x ∈ r :: rest, ¬keyLt x (bestFrom 1 (0, r) rest).2 := by
    intro x hx
    rcases List.mem_cons.mp hx with rfl | hx'
    · exact bestFrom_not_beaten_init rest 1 (0, x)
    · exact bestFrom_not_beaten rest 1 (0, r) x hx'
  have hlt : (bestFrom 1 (0, r) rest).1 < (r :: rest).length := by
    rcases hprov with he | ⟨j, hj, hev⟩
    · rw [he]
      simp
    · rw [hev]
      simpa using Nat.succ_lt_succ hj
  have hget : (r :: rest).get ⟨(bestFrom 1 (0, r) rest).1, hlt⟩ =
      (bestFrom 1 (0, r) rest).2 := by
    rcases hprov with he | ⟨j, hj, hev⟩
    · simp [he]
    · simp [hev]
  have hearliest : ∀ (j : ℕ) (hj : j < (r :: rest).length),
      keyEq ((r :: rest).get ⟨j, hj⟩) (bestFrom 1 (0, r) rest).2 →
        (bestFrom 1 (0, r) rest).1 ≤ j := by
    intro j hj heq
    match j with
    | 0 =>
      have := bestFrom_keyEq_init rest 1 (0, r) (by simpa using heq)
      rw [this]
    | j' + 1 =>
      have := bestFrom_earliest rest 1 (0, r) (by omega) j'
        (by simpa using hj) (by simpa using heq)
      omega
  refine ⟨bestFrom 1 (0, r) rest, rfl, hlt, hget, hno, hearliest, ?_, ?_⟩
  · intro x hx
    exact le_of_not_lt fun hgt => hno x hx (Or.inl hgt)
  · intro x hx heq
    exact le_of_not_lt fun hlt' => hno x hx (Or.inr ⟨heq, hlt'⟩)

@[simp] theorem evaluateTrial_params {Row Label Pred Model : Type}
    (cfg : SearchConfig Row Label Pred Model) (folds : List (Fold Row Label))
    (params : NestedParams) : (evaluateTrial cfg folds params).1.params = params :=
  rfl

theorem evaluateTrial_scores_length {Row Label Pred Model : Type}
    (cfg : SearchConfig Row Label Pred Model) (folds : List (Fold Row Label))
    (params : NestedParams) :
    (evaluateTrial cfg folds params).1.per_fold_scores.length = folds.length := by
  simp [evaluateTrial]

theorem runTrials_length {Row Label Pred Model : Type}
    (cfg : SearchConfig Row Label Pred Model) (folds : List (Fold Row Label)) :
    ∀ (n : ℕ) (obs : List (NestedParams × ℚ)),
      (runTrials cfg folds n obs).1.length = n
  | 0, _ => rfl
  | n + 1, obs => by
    simp only [runTrials, List.length_cons]
    rw [runTrials_length cfg folds n]

theorem runTrials_obs {Row Label Pred Model : Type}
    (cfg : SearchConfig Row Label Pred Model) (folds : List (Fold Row Label)) :
    ∀ (n : ℕ) (obs : List (NestedParams × ℚ)),
      (runTrials cfg folds n obs).2.1 =
        obs ++ (runTrials cfg folds n obs).1.map
          (fun r => (r.params, -r.mean_score))
  | 0, obs => by
    simp [runTrials]
  | n + 1, obs => by
    simp only [runTrials]
    rw [runTrials_obs cfg folds n]
    simp

theorem evaluateTrial_score_get {Row Label Pred Model : Type}
    (cfg : SearchConfig Row Label Pred Model) (folds : List (Fold Row Label))
    (params : NestedParams) (i : ℕ) (hi : i < folds.length) :
    (evaluateTrial cfg folds params).1.per_fold_scores.get
      ⟨i, by rw [evaluateTrial_scores_length]; exact hi⟩ =
      (evalFold cfg params i (folds.get ⟨i, hi⟩)).1 := by
  simp [evaluateTrial, List.get_eq_getElem]

theorem evaluateTrial_degenerate_fold {Row Label Pred Model : Type}
    (cfg : SearchConfig Row Label Pred Model) (folds : List (Fold Row Label))
    (params : NestedParams) (i : ℕ) (hi : i < folds.length)
    (hdeg : cfg.viable (cfg.bindFit params (folds.get ⟨i, hi⟩).train
      (folds.get ⟨i, hi⟩).trainLabels) = false) :
    (evaluateTrial cfg folds params).1.per_fold_scores.get
      ⟨i, by rw [evaluateTrial_scores_length]; exact hi⟩ = cfg.error_score ∧
    (⟨params, i, cfg.error_score⟩ : DegenerateFoldWarning) ∈
      (evaluateTrial cfg folds params).2 := by
  simp only [List.get_eq_getElem] at hdeg
  constructor
  · rw [evaluateTrial_score_get cfg folds params i hi]
    simp [evalFold, List.get_eq_getElem, hdeg]
  · have hmem : (i, folds.get ⟨i, hi⟩) ∈ folds.enum := by
      rw [List.mem_enum_iff_getElem?]
      simp [List.getElem?_eq_getElem, hi, List.get_eq_getElem]
    apply List.mem_flatten.mpr
    refine ⟨(evalFold cfg params i (folds.get ⟨i, hi⟩)).2, ?_, ?_⟩
    · exact List.mem_map_of_mem _ (List.mem_map_of_mem _ hmem)
    · simp [evalFold, List.get_eq_getElem, hdeg]

theorem evaluateTrial_mean_all_degenerate {Row Label Pred Model : Type}
    (cfg : SearchConfig Row Label Pred Model) (folds : List (Fold Row Label))
    (params : NestedParams) (hne : folds ≠ [])
    (hall : ∀ f ∈ folds, cfg.viable (cfg.bindFit params f.train f.trainLabels) = false) :
    (evaluateTrial cfg folds params).1.mean_score = cfg.error_score := by
  have hs : ∀ s ∈ (evaluateTrial cfg folds params).1.per_fold_scores,
      s = cfg.error_score := by
    intro s hsm
    have hex : ∃ a ∈ folds.enum, (evalFold cfg params a.1 a.2).1 = s := by
      simpa [evaluateTrial] using hsm
    obtain ⟨a, ha, hval⟩ := hex
    have hpf : a.2 ∈ folds := by
      rw [List.mem_enum_iff_getElem?] at ha
      exact List.getElem?_mem ha
    rw [← hval]
    simp [evalFold, hall a.2 hpf]
  have hmean : (evaluateTrial cfg folds params).1.mean_score =
      (evaluateTrial cfg folds params).1.per_fold_scores.sum /
        (evaluateTrial cfg folds params).1.per_fold_scores.length := rfl
  have hlen : (evaluateTrial cfg folds params).1.per_fold_scores.length =
      folds.length := evaluateTrial_scores_length cfg folds params
  have hrep := List.eq_replicate_of_mem hs
  rw [hmean, hrep]
  rw [List.sum_replicate, List.length_replicate]
  rw [nsmul_eq_mul]
  have hne' : ((evaluateTrial cfg folds params).1.per_fold_scores.length : ℚ) ≠ 0 := by
    rw [hlen]
    exact_mod_cast Nat.pos_iff_ne_zero.mp (List.length_pos.mpr hne)
  exact mul_div_cancel_left₀ _ hne'

theorem keyEq_symm {a b : TrialRecord} (h : keyEq a b) : keyEq b a :=
  ⟨h.1.symm, h.2.symm⟩

theorem keyEq_trans {a b c : TrialRecord} (h₁ : keyEq a b) (h₂ : keyEq b c) :
    keyEq a c :=
  ⟨h₁.1.trans h₂.1, h₁.2.trans h₂.2⟩

theorem keyLt_keyEq_congr {a b c : TrialRecord} (h : keyLt a b) (h' : keyEq b c) :
    keyLt a c := by
  obtain ⟨hm, hs⟩ := h'
  unfold keyLt at *
  rcases h with h | ⟨e, s⟩
  · exact Or.inl (hm ▸ h)
  · exact Or.inr ⟨e.trans hm, hs ▸ s⟩

instance : IsTotal (ℕ × TrialRecord) rowLe := by
  constructor
  intro a b
  by_cases h₁ : keyLt a.2 b.2
  · exact Or.inl (Or.inl h₁)
  by_cases h₂ : keyLt b.2 a.2
  · exact Or.inr (Or.inl h₂)
  rcases Nat.le_total a.1 b.1 with h | h
  · exact Or.inl (Or.inr ⟨h₁, h₂, h⟩)
  · exact Or.inr (Or.inr ⟨h₂, h₁, h⟩)

instance : IsTrans (ℕ × TrialRecord) rowLe := by
  constructor
  intro a b c hab hbc
  rcases hab with hab | ⟨nab, nba, iab⟩ <;> rcases hbc with hbc | ⟨nbc, ncb, ibc⟩
  · exact Or.inl (keyLt_trans hab hbc)
  · exact Or.inl (keyLt_keyEq_congr hab (keyEq_of_not_lt nbc ncb))
  · exact Or.inl (keyEq_lt_congr (keyEq_of_not_lt nab nba) hbc)
  · have hac := keyEq_trans (keyEq_of_not_lt nab nba) (keyEq_of_not_lt nbc ncb)
    exact Or.inr ⟨(keyEq_not_lt hac).1, (keyEq_not_lt hac).2, iab.trans ibc⟩

theorem lookup_eq_of_perm {β : Type} :
    ∀ {l₁ l₂ : List (ℕ × β)}, List.Perm l₁ l₂ → (l₁.map Prod.fst).Nodup →
      ∀ i : ℕ, List.lookup i l₁ = List.lookup i l₂ := by
  intro l₁ l₂ h
  induction h with
  | nil =>
    intro _ i
    rfl
  | cons x h ih =>
    intro nd i
    have nd' := (List.nodup_cons.mp nd).2
    by_cases hx : i = x.1
    · simp [List.lookup, hx]
    · simp only [List.lookup, beq_eq_false_iff_ne.mpr hx]
      exact ih nd' i
  | swap x y t =>
    intro nd i
    have hne : y.1 ≠ x.1 := by
      have := (List.nodup_cons.mp nd).1
      simp only [List.map_cons, List.mem_cons] at this ⊢
      intro hcon
      exact this (Or.inl hcon)
    by_cases hy : i = y.1 <;> by_cases hx : i = x.1
    · exact absurd (hy ▸ hx : y.1 = x.1) (by omega)
    · simp [List.lookup, hy, beq_eq_false_iff_ne.mpr hx,
        beq_eq_false_iff_ne.mpr hne]
    · simp [List.lookup, hx, beq_eq_false_iff_ne.mpr hy,
        beq_eq_false_iff_ne.mpr (Ne.symm hne)]
    · simp [List.lookup, beq_eq_false_iff_ne.mpr hx, beq_eq_false_iff_ne.mpr hy]
  | trans h₁ h₂ ih₁ ih₂ =>
    intro nd i
    have nd₂ := ((h₁.map Prod.fst).nodup_iff).mp nd
    exact (ih₁ nd i).trans (ih₂ nd₂ i)

theorem lookup_enumFrom {β : Type} :
    ∀ (l : List β) (k i : ℕ) (h : i < l.length),
      List.lookup (k + i) (l.enumFrom k) = some (l.get ⟨i, h⟩)
  | a :: t, k, 0, h => by
    simp [List.enumFrom, List.lookup]
  | a :: t, k, i + 1, h => by
    have hne : k + (i + 1) ≠ k := by omega
    have ht : i < t.length := by simpa using h
    have := lookup_enumFrom t (k + 1) i ht
    simp only [List.enumFrom, List.lookup, beq_eq_false_iff_ne.mpr hne]
    rw [show k + 1 + i = k + (i + 1) by omega] at this
    simpa using this

theorem lookup_enum {β : Type} (l : List β) (i : ℕ) (h : i < l.length) :
    List.lookup i l.enum = some (l.get ⟨i, h⟩) := by
  have := lookup_enumFrom l 0 i h
  simpa [List.enum] using this

theorem mapM_congr_option {α β : Type} :
    ∀ (l : List α) (f g : α → Option β), (∀ x ∈ l, f x = g x) →
      l.mapM f = l.mapM g
  | [], _, _, _ => rfl
  | a :: t, f, g, h => by
    have ht := mapM_congr_option t f g fun x hx => h x (List.mem_cons_of_mem a hx)
    rw [List.mapM_cons, List.mapM_cons, h a (List.mem_cons_self a t), ht]

theorem mapM_range'_eq_some {α : Type} (f : ℕ → Option α) :
    ∀ (l : List α) (s : ℕ),
      (∀ (i : ℕ) (hi : i < l.length), f (s + i) = some (l.get ⟨i, hi⟩)) →
      (List.range' s l.length).mapM f = some l
  | [], _, _ => rfl
  | a :: t, s, h => by
    have h0 : f s = some a := by simpa using h 0 (by simp)
    have ht := mapM_range'_eq_some f t (s + 1) fun i hi => by
      have := h (i + 1) (by simpa using hi)
      rw [show s + (i + 1) = s + 1 + i by omega] at this
      simpa using this
    rw [List.length_cons, List.range'_succ, List.mapM_cons, h0, ht]
    rfl

theorem gather_enum (hist : List TrialRecord) :
    gatherSubmissionOrder hist.enum hist.length = some hist := by
  unfold gatherSubmissionOrder
  rw [List.range_eq_range']
  exact mapM_range'_eq_some _ hist 0 fun i hi => by
    simpa using lookup_enum hist i hi

theorem gather_perm {hist : List TrialRecord} {arrivals : List (ℕ × TrialRecord)}
    (h : List.Perm arrivals hist.enum) :
    gatherSubmissionOrder arrivals hist.length = some hist := by
  have heq : ∀ i ∈ List.range hist.length,
      List.lookup i arrivals = List.lookup i hist.enum := fun i _ =>
    (lookup_eq_of_perm h.symm (List.nodup_enum_map_fst hist) i).symm
  unfold gatherSubmissionOrder
  rw [mapM_congr_option _ _ _ heq]
  have := gather_enum hist
  unfold gatherSubmissionOrder at this
  exact this

theorem fitBS_history {Row Label Pred Model : Type}
    (cfg : SearchConfig Row Label Pred Model) (X : List Row) (y : List Label) :
    (fitBS cfg X y).history =
      (runTrials cfg (cfg.split X y cfg.cv) cfg.n_iter []).1 := rfl

theorem fitBS_history_length {Row Label Pred Model : Type}
    (cfg : SearchConfig Row Label Pred Model) (X : List Row) (y : List Label) :
    (fitBS cfg X y).history.length = cfg.n_iter := by
  rw [fitBS_history]
  exact runTrials_length cfg _ cfg.n_iter []

theorem fitBS_winner {Row Label Pred Model : Type}
    (cfg : SearchConfig Row Label Pred Model) (X : List Row) (y : List Label)
    (h : 1 ≤ cfg.n_iter) :
    ∃ pr : ℕ × TrialRecord,
      bestPair (fitBS cfg X y).history = some pr ∧
      (fitBS cfg X y).best_index = pr.1 ∧
      (fitBS cfg X y).best_score = pr.2.mean_score ∧
      (fitBS cfg X y).best_params =
        specBestParams cfg.search_spaces cfg.templateDefaults pr.2.params ∧
      (fitBS cfg X y).refit = cfg.bindFit pr.2.params X y ∧
      ∃ hlt : pr.1 < (fitBS cfg X y).history.length,
        (fitBS cfg X y).history.get ⟨pr.1, hlt⟩ = pr.2 ∧
        (∀ x ∈ (fitBS cfg X y).history, ¬keyLt x pr.2) ∧
        (∀ (j : ℕ) (hj : j < (fitBS cfg X y).history.length),
          keyEq ((fitBS cfg X y).history.get ⟨j, hj⟩) pr.2 → pr.1 ≤ j) ∧
        (∀ x ∈ (fitBS cfg X y).history, x.mean_score ≤ pr.2.mean_score) ∧
        (∀ x ∈ (fitBS cfg X y).history, x.mean_score = pr.2.mean_score →
          pr.2.stddev_score ≤ x.stddev_score) := by
  have hne : (fitBS cfg X y).history ≠ [] := by
    intro hcon
    have := fitBS_history_length cfg X y
    rw [hcon] at this
    simp at this
    omega
  obtain ⟨pr, hsome, hlt, hget, hno, hearliest, hmax, hstd⟩ := bestPair_full hne
  have hwin : (bestPair (runTrials cfg (cfg.split X y cfg.cv) cfg.n_iter []).1).getD
      (0, ⟨[], [], 0, 0, []⟩) = pr := by
    rw [fitBS_history] at hsome
    rw [hsome]
    rfl
  refine ⟨pr, hsome, ?_, ?_, ?_, ?_, hlt, hget, hno, hearliest, hmax, hstd⟩
  · show ((bestPair (runTrials cfg (cfg.split X y cfg.cv) cfg.n_iter []).1).getD
      (0, ⟨[], [], 0, 0, []⟩)).1 = pr.1
    rw [hwin]
  · show ((bestPair (runTrials cfg (cfg.split X y cfg.cv) cfg.n_iter []).1).getD
      (0, ⟨[], [], 0, 0, []⟩)).2.mean_score = pr.2.mean_score
    rw [hwin]
  · show specBestParams cfg.search_spaces cfg.templateDefaults
      ((bestPair (runTrials cfg (cfg.split X y cfg.cv) cfg.n_iter []).1).getD
        (0, ⟨[], [], 0, 0, []⟩)).2.params = _
    rw [hwin]
  · show cfg.bindFit ((bestPair (runTrials cfg (cfg.split X y cfg.cv) cfg.n_iter []).1).getD
      (0, ⟨[], [], 0, 0, []⟩)).2.params X y = _
    rw [hwin]

/-- A minimal concrete configuration over unit data whose pipeline is
degenerate on every fold (`bindFit` always yields a non-viable model), used
to instantiate the engine in closed witness checks. -/
def degenConfig : SearchConfig Unit Unit Unit Bool :=
  { search_spaces := []
    templateDefaults := []
    cv := 3
    n_iter := 2
    num_cores := 1
    error_score := 0
    verbose := 0
    scorer := fun _ _ => 1
    bindFit := fun _ _ _ => false
    viable := fun m => m
    produce := fun _ _ => ()
    split := fun _ _ k => List.replicate k ⟨[], [], [], []⟩
    propose := fun _ => [] }

/-- Three degenerate folds over unit data, matching `degenConfig.cv`. -/
def degenFolds : List (Fold Unit Unit) := List.replicate 3 ⟨[], [], [], []⟩

/-- C1: for every trial and every CV fold whose fitted pipeline's terminal
stage yields no usable output, the evaluator records that fold's score as
the configured `error_score` and surfaces a warning identifying the
offending parameter set and fold index; the trial and the search continue
rather than raising (the evaluator and `fit` are total, and `fit` still
completes all `n_iter` trials); and a trial in which every fold is
degenerate has `mean_score` equal to `error_score`. -/
theorem C1_degenerate_fold_policy {Row Label Pred Model : Type}
    (cfg : SearchConfig Row Label Pred Model) (folds : List (Fold Row Label))
    (params : NestedParams) (X : List Row) (y : List Label) :
    (∀ (i : ℕ) (hi : i < folds.length),
      cfg.viable (cfg.bindFit params (folds.get ⟨i, hi⟩).train
        (folds.get ⟨i, hi⟩).trainLabels) = false →
      (evaluateTrial cfg folds params).1.per_fold_scores.get
        ⟨i, by rw [evaluateTrial_scores_length]; exact hi⟩ = cfg.error_score ∧
      (⟨params, i, cfg.error_score⟩ : DegenerateFoldWarning) ∈
        (evaluateTrial cfg folds params).2) ∧
    (folds ≠ [] →
      (∀ f ∈ folds, cfg.viable (cfg.bindFit params f.train f.trainLabels) = false) →
      (evaluateTrial cfg folds params).1.mean_score = cfg.error_score) ∧
    (fitBS cfg X y).history.length = cfg.n_iter := by
  refine ⟨?_, ?_, fitBS_history_length cfg X y⟩
  · intro i hi hdeg
    exact evaluateTrial_degenerate_fold cfg folds params i hi hdeg
  · intro hne hall
    exact evaluateTrial_mean_all_degenerate cfg folds params hne hall

/-- Witness for C1 at `degenConfig`: a trial whose three folds are all
degenerate has mean score equal to the configured error score, its first
fold's warning names the parameter set and fold index 0, and the search
still runs its full two-trial budget. -/
theorem C1_degenerate_fold_policy_witness :
    (evaluateTrial degenConfig degenFolds []).1.mean_score =
      degenConfig.error_score ∧
    (⟨[], 0, degenConfig.error_score⟩ : DegenerateFoldWarning) ∈
      (evaluateTrial degenConfig degenFolds []).2 ∧
    (fitBS degenConfig [] []).history.length = degenConfig.n_iter := by
  have h := C1_degenerate_fold_policy degenConfig degenFolds [] [] []
  refine ⟨h.2.1 (by simp [degenFolds]) (fun f _ => rfl),
    (h.1 0 (by simp [degenFolds]) rfl).2, h.2.2⟩

/-- C4: for every configuration with trial budget `n_iter ≥ 1`, `fit`
evaluates exactly `n_iter` trials — there is no early stopping and no
convergence criterion — so the completed history holds exactly `n_iter`
trial records (positions 0 through `n_iter - 1`). -/
theorem C4_exactly_n_iter_trials {Row Label Pred Model : Type}
    (cfg : SearchConfig Row Label Pred Model) (X : List Row) (y : List Label)
    (_h : 1 ≤ cfg.n_iter) :
    (fitBS cfg X y).history.length = cfg.n_iter :=
  fitBS_history_length cfg X y

/-- Witness for C4 at `degenConfig` (budget 2): the completed history has
exactly 2 records. -/
theorem C4_exactly_n_iter_trials_witness :
    1 ≤ degenConfig.n_iter ∧
    (fitBS degenConfig [] []).history.length = degenConfig.n_iter :=
  ⟨by decide, C4_exactly_n_iter_trials degenConfig [] [] (by decide)⟩

/-- C2: after `fit`, `best_score` equals the maximum of the `mean_score`
values over all recorded trials, and `best_index` is the index of the trial
attaining that maximum, with ties broken first by lowest `stddev_score`
(represented order-faithfully by the population variance) and then by
earliest trial index. -/
theorem C2_best_selection {Row Label Pred Model : Type}
    (cfg : SearchConfig Row Label Pred Model) (X : List Row) (y : List Label)
    (h : 1 ≤ cfg.n_iter) :
    (fitBS cfg X y).best_score ∈
      (fitBS cfg X y).history.map TrialRecord.mean_score ∧
    (∀ m ∈ (fitBS cfg X y).history.map TrialRecord.mean_score,
      m ≤ (fitBS cfg X y).best_score) ∧
    ∃ hlt : (fitBS cfg X y).best_index < (fitBS cfg X y).history.length,
      ((fitBS cfg X y).history.get ⟨(fitBS cfg X y).best_index, hlt⟩).mean_score =
        (fitBS cfg X y).best_score ∧
      (∀ x ∈ (fitBS cfg X y).history, x.mean_score = (fitBS cfg X y).best_score →
        ((fitBS cfg X y).history.get
          ⟨(fitBS cfg X y).best_index, hlt⟩).stddev_score ≤ x.stddev_score) ∧
      (∀ (j : ℕ) (hj : j < (fitBS cfg X y).history.length),
        ((fitBS cfg X y).history.get ⟨j, hj⟩).mean_score =
            (fitBS cfg X y).best_score →
        ((fitBS cfg X y).history.get ⟨j, hj⟩).stddev_score =
            ((fitBS cfg X y).history.get
              ⟨(fitBS cfg X y).best_index, hlt⟩).stddev_score →
        (fitBS cfg X y).best_index ≤ j) := by
  obtain ⟨pr, hsome, hidx, hscore, hparams, hrefit, hlt, hget, hno, hearliest,
    hmax, hstd⟩ := fitBS_winner cfg X y h
  have hmem : pr.2 ∈ (fitBS cfg X y).history := by
    rw [← hget]
    exact List.get_mem _ _ _
  rw [hidx, hscore]
  refine ⟨?_, ?_, hlt, ?_, ?_, ?_⟩
  · exact List.mem_map_of_mem TrialRecord.mean_score hmem
  · intro m hm
    obtain ⟨x, hx, rfl⟩ := List.mem_map.mp hm
    exact hmax x hx
  · rw [hget]
  · intro x hx hxeq
    rw [hget]
    exact hstd x hx hxeq
  · intro j hj hmean hstdeq
    refine hearliest j hj ⟨hmean, ?_⟩
    rw [hget] at hstdeq
    exact hstdeq

/-- Witness for C2 at `degenConfig` (budget 2, hypothesis `1 ≤ n_iter`
discharged concretely): the recorded best score is one of the history's
mean scores. -/
theorem C2_best_selection_witness :
    1 ≤ degenConfig.n_iter ∧
    (fitBS degenConfig [] []).best_score ∈
      (fitBS degenConfig [] []).history.map TrialRecord.mean_score :=
  ⟨by decide, (C2_best_selection degenConfig [] [] (by decide)).1⟩

theorem fitBS_observations {Row Label Pred Model : Type}
    (cfg : SearchConfig Row Label Pred Model) (X : List Row) (y : List Label) :
    (fitBS cfg X y).observations =
      (runTrials cfg (cfg.split X y cfg.cv) cfg.n_iter []).2.1 := rfl

/-- C7: for every trial, the loss fed to the Bayesian optimiser equals the
negation of that trial's mean per-fold score, so minimising loss maximises
mean score; in particular the best (smallest) loss observed over the whole
search equals minus `best_score`. -/
theorem C7_loss_negates_mean {Row Label Pred Model : Type}
    (cfg : SearchConfig Row Label Pred Model) (X : List Row) (y : List Label)
    (h : 1 ≤ cfg.n_iter) :
    (fitBS cfg X y).observations =
      (fitBS cfg X y).history.map (fun r => (r.params, -r.mean_score)) ∧
    -(fitBS cfg X y).best_score ∈ (fitBS cfg X y).observations.map Prod.snd ∧
    (∀ loss ∈ (fitBS cfg X y).observations.map Prod.snd,
      -(fitBS cfg X y).best_score ≤ loss) := by
  have hobs : (fitBS cfg X y).observations =
      (fitBS cfg X y).history.map (fun r => (r.params, -r.mean_score)) := by
    rw [fitBS_observations, fitBS_history]
    rw [runTrials_obs cfg (cfg.split X y cfg.cv) cfg.n_iter []]
    simp
  obtain ⟨pr, hsome, hidx, hscore, hparams, hrefit, hlt, hget, hno, hearliest,
    hmax, hstd⟩ := fitBS_winner cfg X y h
  have hmem : pr.2 ∈ (fitBS cfg X y).history := by
    rw [← hget]
    exact List.get_mem _ _ _
  refine ⟨hobs, ?_, ?_⟩
  · rw [hobs, hscore, List.map_map]
    exact List.mem_map_of_mem _ hmem
  · intro loss hloss
    rw [hobs, List.map_map] at hloss
    obtain ⟨x, hx, rfl⟩ := List.mem_map.mp hloss
    rw [hscore]
    simpa using hmax x hx

/-- Witness for C7 at `degenConfig`: the observation sequence is exactly
the history's (parameters, negated mean score) pairs. -/
theorem C7_loss_negates_mean_witness :
    1 ≤ degenConfig.n_iter ∧
    (fitBS degenConfig [] []).observations =
      (fitBS degenConfig [] []).history.map (fun r => (r.params, -r.mean_score)) :=
  ⟨by decide, (C7_loss_negates_mean degenConfig [] [] (by decide)).1⟩

/-- C6: after the trial loop ends, `fit` rebinds the winning flat parameter
set onto the original pipeline template and fits that pipeline once on the
entire input dataset (no hold-out: `bindFit` receives all of `X` and `y`);
this refit pipeline — not any per-fold pipeline — is the artifact every
subsequent `predict` call delegates to. -/
theorem C6_refit_on_full_data {Row Label Pred Model : Type}
    (cfg : SearchConfig Row Label Pred Model) (X : List Row) (y : List Label)
    (h : 1 ≤ cfg.n_iter) :
    ∃ hlt : (fitBS cfg X y).best_index < (fitBS cfg X y).history.length,
      (fitBS cfg X y).refit =
        cfg.bindFit ((fitBS cfg X y).history.get
          ⟨(fitBS cfg X y).best_index, hlt⟩).params X y ∧
      ∀ Z : List Row, predictBS cfg (some (fitBS cfg X y)) Z =
        .ok (Z.map (cfg.produce (fitBS cfg X y).refit)) := by
  obtain ⟨pr, hsome, hidx, hscore, hparams, hrefit, hlt, hget, hno, hearliest,
    hmax, hstd⟩ := fitBS_winner cfg X y h
  rw [hidx]
  refine ⟨hlt, ?_, fun Z => rfl⟩
  rw [hget, hrefit]

/-- Witness for C6 at `degenConfig`: `predict` after `fit` delegates to the
refit model on a one-row input. -/
theorem C6_refit_on_full_data_witness :
    1 ≤ degenConfig.n_iter ∧
    predictBS degenConfig (some (fitBS degenConfig [] [])) [()] =
      .ok ([()].map (degenConfig.produce (fitBS degenConfig [] []).refit)) := by
  refine ⟨by decide, ?_⟩
  obtain ⟨hlt, hrefit, hpred⟩ := C6_refit_on_full_data degenConfig [] [] (by decide)
  exact hpred [()]

/-- C5: calling `predict` before `fit` has completed fails with
`NotFittedError`; calling it on a fitted orchestrator returns, for every
input table, the prediction sequence produced by the refit pipeline's
terminal step, with one prediction per input row and in input row order. -/
theorem C5_predict_contract {Row Label Pred Model : Type}
    (cfg : SearchConfig Row Label Pred Model) :
    (∀ X : List Row, predictBS cfg none X = .error .notFittedError) ∧
    (∀ (fr : FitResult Model) (X : List Row),
      predictBS cfg (some fr) X = .ok (X.map (cfg.produce fr.refit)) ∧
      (X.map (cfg.produce fr.refit)).length = X.length ∧
      ∀ (i : ℕ) (hi : i < X.length),
        (X.map (cfg.produce fr.refit)).get
            ⟨i, by rw [List.length_map]; exact hi⟩ =
          cfg.produce fr.refit (X.get ⟨i, hi⟩)) := by
  refine ⟨fun X => rfl, fun fr X => ⟨rfl, List.length_map X _, ?_⟩⟩
  intro i hi
  simp [List.get_eq_getElem]

/-- Witness for C5 at `degenConfig`: before `fit` the orchestrator refuses
with `NotFittedError`; after `fit` a two-row input yields two predictions,
the first produced from the first row. -/
theorem C5_predict_contract_witness :
    predictBS degenConfig none [(), ()] = .error .notFittedError ∧
    ([(), ()].map (degenConfig.produce (fitBS degenConfig [] []).refit)).length =
      [(), ()].length ∧
    ([(), ()].map (degenConfig.produce (fitBS degenConfig [] []).refit)).get
        ⟨0, by decide⟩ =
      degenConfig.produce (fitBS degenConfig [] []).refit
        ([(), ()].get ⟨0, by decide⟩) := by
  have h := C5_predict_contract degenConfig
  exact ⟨h.1 [(), ()],
    (h.2 (fitBS degenConfig [] []) [(), ()]).2.1,
    (h.2 (fitBS degenConfig [] []) [(), ()]).2.2 0 (by decide)⟩

/-- C8: for a fixed seed, identical data and identical configuration, the
search results are deterministic and independent of the worker count.  The
model's run is a pure function of the configuration's collaborators (the
seed lives inside `propose`/`split`), so two runs differing only in
`num_cores` produce identical results — the same history (hence the same
set of (params, mean_score) pairs), `best_params` and `best_score`.
Moreover the spec's submission-order observe queue makes the outcome
independent of worker completion order: replaying any completion-order
permutation of the indexed trial results through the queue reconstructs
exactly the canonical history. -/
theorem runTrials_num_cores_irrelevant {Row Label Pred Model : Type}
    (cfg : SearchConfig Row Label Pred Model) (c : ℕ)
    (folds : List (Fold Row Label)) :
    ∀ (n : ℕ) (obs : List (NestedParams × ℚ)),
      runTrials { cfg with num_cores := c } folds n obs =
        runTrials cfg folds n obs
  | 0, _ => rfl
  | n + 1, obs => by
    simp only [runTrials]
    rw [runTrials_num_cores_irrelevant cfg c folds n]
    rfl

theorem fitBS_num_cores_irrelevant {Row Label Pred Model : Type}
    (cfg : SearchConfig Row Label Pred Model) (c : ℕ) (X : List Row)
    (y : List Label) :
    fitBS { cfg with num_cores := c } X y = fitBS cfg X y := by
  simp only [fitBS]
  rw [runTrials_num_cores_irrelevant cfg c]

theorem C8_determinism_and_worker_count {Row Label Pred Model : Type}
    (cfg : SearchConfig Row Label Pred Model) (X : List Row) (y : List Label)
    (c₁ c₂ : ℕ) (arrivals : List (ℕ × TrialRecord))
    (harr : List.Perm arrivals (fitBS cfg X y).history.enum) :
    fitBS { cfg with num_cores := c₁ } X y =
      fitBS { cfg with num_cores := c₂ } X y ∧
    (fitBS { cfg with num_cores := c₁ } X y).history.map
        (fun r => (r.params, r.mean_score)) =
      (fitBS { cfg with num_cores := c₂ } X y).history.map
        (fun r => (r.params, r.mean_score)) ∧
    (fitBS { cfg with num_cores := c₁ } X y).best_params =
      (fitBS { cfg with num_cores := c₂ } X y).best_params ∧
    (fitBS { cfg with num_cores := c₁ } X y).best_score =
      (fitBS { cfg with num_cores := c₂ } X y).best_score ∧
    gatherSubmissionOrder arrivals cfg.n_iter = some (fitBS cfg X y).history := by
  have he : fitBS { cfg with num_cores := c₁ } X y =
      fitBS { cfg with num_cores := c₂ } X y := by
    rw [fitBS_num_cores_irrelevant cfg c₁, fitBS_num_cores_irrelevant cfg c₂]
  refine ⟨he, by rw [he], by rw [he], by rw [he], ?_⟩
  have hlen := fitBS_history_length cfg X y
  rw [← hlen]
  exact gather_perm harr

/-- Witness for C8 at `degenConfig`: replaying the trial results in
reversed completion order still reconstructs the canonical history. -/
theorem C8_determinism_and_worker_count_witness :
    gatherSubmissionOrder (fitBS degenConfig [] []).history.enum.reverse
        degenConfig.n_iter =
      some (fitBS degenConfig [] []).history :=
  (C8_determinism_and_worker_count degenConfig [] [] 1 3
    (fitBS degenConfig [] []).history.enum.reverse
    (List.reverse_perm _)).2.2.2.2

/-- C10: a `UniformInteger(lo, hi)` parameter materialises as a float-typed
value of integral magnitude between `lo` and `hi` inclusive — never a
non-integral value and never an int-typed value; the recorded run's
`generator__n_total_conditions` values (4.0, 1.0, 3.0 in the warnings, 5.0,
2.0 in the results table) are exactly such values for `UniformInteger(1, 5)`. -/
theorem C10_uniform_integer_is_integral_float (lo hi : ℤ) (u : ℚ)
    (hlo : lo < hi) (h0 : 0 ≤ u) (h1 : u ≤ 1) :
    (∃ z : ℤ, Distribution.materialise (.uniformInteger lo hi) u =
        .vfloat ((z : ℤ) : ℚ) ∧ lo ≤ z ∧ z ≤ hi) ∧
    observedIntegerValues = [.vfloat ((4 : ℤ) : ℚ), .vfloat ((1 : ℤ) : ℚ),
      .vfloat ((3 : ℤ) : ℚ), .vfloat ((5 : ℤ) : ℚ), .vfloat ((2 : ℤ) : ℚ)] ∧
    (∀ z ∈ ([4, 1, 3, 5, 2] : List ℤ), 1 ≤ z ∧ z ≤ 5) := by
  have hcast : (lo : ℚ) < (hi : ℚ) := by exact_mod_cast hlo
  refine ⟨?_, ?_, by decide⟩
  · refine ⟨roundHalfUp ((lo : ℚ) + u * ((hi : ℚ) - (lo : ℚ))), rfl, ?_, ?_⟩
    · have hnn : 0 ≤ u * ((hi : ℚ) - (lo : ℚ)) :=
        mul_nonneg h0 (by linarith)
      unfold roundHalfUp
      rw [Int.le_floor]
      linarith
    · have hub : u * ((hi : ℚ) - (lo : ℚ)) ≤ (hi : ℚ) - (lo : ℚ) :=
        mul_le_of_le_one_left (by linarith) h1
      unfold roundHalfUp
      have hflt : (⌊(lo : ℚ) + u * ((hi : ℚ) - (lo : ℚ)) + 1 / 2⌋ : ℤ) < hi + 1 := by
        rw [Int.floor_lt]
        push_cast
        linarith
      omega
  · simp only [observedIntegerValues, List.cons.injEq, PValue.vfloat.injEq, and_true]
    norm_num

/-- Witness for C10 at `UniformInteger(1, 5)` and unit draw 0. -/
theorem C10_uniform_integer_is_integral_float_witness :
    (1 : ℤ) < 5 ∧ (0 : ℚ) ≤ 0 ∧ (0 : ℚ) ≤ 1 ∧
    ∃ z : ℤ, Distribution.materialise (.uniformInteger 1 5) 0 =
      .vfloat ((z : ℤ) : ℚ) ∧ 1 ≤ z ∧ z ≤ 5 :=
  ⟨by decide, le_refl 0, zero_le_one,
    (C10_uniform_integer_is_integral_float 1 5 0 (by decide) (le_refl 0)
      zero_le_one).1⟩

theorem rowLe_of_mean_lt {i j : ℕ} {a b : TrialRecord}
    (h : b.mean_score < a.mean_score) : rowLe (i, a) (j, b) :=
  Or.inl (Or.inl h)

theorem rowLe_of_keyEq {i j : ℕ} {a b : TrialRecord}
    (hm : a.mean_score = b.mean_score) (hs : a.stddev_score = b.stddev_score)
    (hij : i ≤ j) : rowLe (i, a) (j, b) :=
  Or.inr ⟨(keyEq_not_lt ⟨hm, hs⟩).1, (keyEq_not_lt ⟨hm, hs⟩).2, hij⟩

/-- C9: after `fit`, the tabular trial results are exposed through
`cv_results` (the recorded object exposes `cv_results`, not an attribute
named `history`): one row per trial, keyed by the trial's index, carrying
the trial's parameter set, the flattened per-parameter columns
(`flattenParams`), fold indices, per-fold scores, mean and spread; the rows
are a permutation of the indexed history ordered best-first — by
`MeanScore` descending, rows tied on `MeanScore` by ascending
`StdDevScore`, and rows tied on both by earliest trial index — not by
execution order.  The recorded `cv_results.head()` (trials 14, 13, 0, 8,
10) is in exactly this order, the tie between trials 0 and 8 resolved by
the earlier index. -/
theorem C9_cv_results_table :
    (∀ hist : List TrialRecord,
      List.Sorted rowLe (cv_results hist) ∧
      List.Perm (cv_results hist) hist.enum) ∧
    List.Sorted rowLe observedCvHead ∧
    observedCvHead.map Prod.fst = [14, 13, 0, 8, 10] := by
  refine ⟨fun hist => ⟨List.sorted_insertionSort rowLe hist.enum,
    List.perm_insertionSort rowLe hist.enum⟩, ?_, rfl⟩
  unfold observedCvHead
  refine List.Pairwise.cons ?_ (List.Pairwise.cons ?_ (List.Pairwise.cons ?_
    (List.Pairwise.cons ?_ (List.Pairwise.cons ?_ List.Pairwise.nil))))
  · intro b hb
    fin_cases hb
    · exact rowLe_of_mean_lt (by norm_num [observedHeadRow])
    · exact rowLe_of_mean_lt (by norm_num [observedHeadRow])
    · exact rowLe_of_mean_lt (by norm_num [observedHeadRow])
    · exact rowLe_of_mean_lt (by norm_num [observedHeadRow])
  · intro b hb
    fin_cases hb
    · exact rowLe_of_mean_lt (by norm_num [observedHeadRow])
    · exact rowLe_of_mean_lt (by norm_num [observedHeadRow])
    · exact rowLe_of_mean_lt (by norm_num [observedHeadRow])
  · intro b hb
    fin_cases hb
    · exact rowLe_of_keyEq rfl rfl (by norm_num)
    · exact rowLe_of_mean_lt (by norm_num [observedHeadRow])
  · intro b hb
    fin_cases hb
    · exact rowLe_of_mean_lt (by norm_num [observedHeadRow])
  · intro b hb
    exact absurd hb (List.not_mem_nil b)

/-- Counterexample to C3, at the run recorded by the notebook: the key
`generator.n_total_conditions` is declared tunable in `search_spaces`, the
winning trial (index 14) chose the value `5.0` for it, `5.0` differs from
the pipeline template's default `4` — so by the claim it must appear in
`best_params` with the winning value — yet the recorded `best_params` holds
no entry at all for that key. -/
theorem C3_counterexample :
    isTunable observedSearchSpaces "generator" "n_total_conditions" = true ∧
    lookupParam observedWinningParams "generator" "n_total_conditions" =
      some (.vfloat 5.0) ∧
    lookupParam observedTemplateDefaults "generator" "n_total_conditions" =
      some (.vint 4) ∧
    PValue.pyEq (.vfloat 5.0) (.vint 4) = false ∧
    lookupParam observedBestParams "generator" "n_total_conditions" = none := by
  refine ⟨rfl, rfl, rfl, ?_, rfl⟩
  simp only [PValue.pyEq, beq_eq_false_iff_ne]
  norm_num

/-- C3 as amended: every entry of the recorded `best_params` is a
step/parameter key declared tunable in `search_spaces`, carrying the
winning trial's value, and differing (Python `==`) from the pipeline
template's default where one is recorded — but the restriction is strict:
not every tunable, non-default overridden key appears (the
`UniformInteger`-distributed key `generator.n_total_conditions`, winning
value `5.0` against template default `4`, is absent). -/
theorem C3_amended_best_params :
    (lookupParam observedBestParams "corr_filterer" "threshold" =
        some (.vfloat 0.13637152094471683) ∧
      isTunable observedSearchSpaces "corr_filterer" "threshold" = true ∧
      lookupParam observedWinningParams "corr_filterer" "threshold" =
        some (.vfloat 0.13637152094471683) ∧
      lookupParam observedTemplateDefaults "corr_filterer" "threshold" =
        some (.vfloat 0.9) ∧
      PValue.pyEq (.vfloat 0.13637152094471683) (.vfloat 0.9) = false) ∧
    (lookupParam observedBestParams "generator" "target_feat_corr_types" =
        some (.vstr "Infer") ∧
      isTunable observedSearchSpaces "generator" "target_feat_corr_types" = true ∧
      lookupParam observedWinningParams "generator" "target_feat_corr_types" =
        some (.vstr "Infer") ∧
      lookupParam observedTemplateDefaults "generator" "target_feat_corr_types" =
        none) ∧
    (lookupParam observedBestParams "simple_filterer" "threshold" =
        some (.vfloat 0.6444172588081419) ∧
      isTunable observedSearchSpaces "simple_filterer" "threshold" = true ∧
      lookupParam observedWinningParams "simple_filterer" "threshold" =
        some (.vfloat 0.6444172588081419) ∧
      lookupParam observedTemplateDefaults "simple_filterer" "threshold" =
        some (.vfloat 0.1) ∧
      PValue.pyEq (.vfloat 0.6444172588081419) (.vfloat 0.1) = false) ∧
    observedBestParams.map Prod.fst =
      ["corr_filterer", "generator", "simple_filterer"] ∧
    (observedBestParams.map fun sp => sp.2.map Prod.fst) =
      [["threshold"], ["target_feat_corr_types"], ["threshold"]] ∧
    lookupParam observedBestParams "generator" "n_total_conditions" = none := by
  refine ⟨⟨rfl, rfl, rfl, rfl, ?_⟩, ⟨rfl, rfl, rfl, rfl⟩,
    ⟨rfl, rfl, rfl, rfl, ?_⟩, rfl, rfl, rfl⟩
  · simp only [PValue.pyEq, beq_eq_false_iff_ne]
    norm_num
  · simp only [PValue.pyEq, beq_eq_false_iff_ne]
    norm_num
